import Mathlib

/-!
Verification development for the BlackRoad Pi Agent core (pi_agent package).

Each Python component relevant to the checked claims is shallowly embedded:
pure logic becomes Lean functions, stateful loops become explicit state
passing or inductively defined step relations, and the outside world
(child processes, the websocket transport) is passed in as an explicit
outcome parameter.  Machine floats that are only compared for equality or
order (timestamps, exit codes) are modelled as `Int`; wall-clock stamping
that no claim inspects (started_at, completed_at) is elided from the
embedded records.
-/

namespace PiAgent

/-! ## Executor data model (src/pi_agent/executor.py) -/

/-- Task execution status, executor.py lines 21-28. -/
inductive TaskStatus
  | pending
  | running
  | completed
  | failed
  | cancelled
  | timeout
  deriving DecidableEq, Repr

/-- Terminal statuses: the last four members of the enumeration. -/
def TaskStatus.isTerminal : TaskStatus → Bool
  | .pending => false
  | .running => false
  | _ => true

/-- Result of task execution, executor.py lines 31-41.  The wall-clock
fields started_at and completed_at are elided (no checked claim reads
them); exit codes are `Option Int` (Python `Optional[int]`, None while no
child has exited). -/
structure TaskResult where
  task_id : String
  status : TaskStatus
  exit_code : Option Int := none
  stdout : String := ""
  stderr : String := ""
  error : Option String := none
  deriving DecidableEq, Repr

/-- Executor settings, config.py lines 47-53. -/
structure ExecutorConfig where
  max_concurrent_tasks : Nat := 4
  blocked_commands : List String := ["rm -rf /", "mkfs", "dd if="]
  deriving Repr

/-- Default blocklist, config.py line 53. -/
def default_blocked_commands : List String := ["rm -rf /", "mkfs", "dd if="]

/-! ## Blocklist check (executor.py lines 349-355)

`_is_blocked_command` lowercases the command and returns true as soon as
some configured entry, lowercased, occurs as a substring.  Python's `in`
operator on strings is substring containment, re-implemented here over
character lists. -/

/-- Leading-match test: the first list is a prefix of the second. -/
def startsWithChars : List Char → List Char → Bool
  | [], _ => true
  | _ :: _, [] => false
  | n :: ns, h :: hs => (n == h) && startsWithChars ns hs

/-- Substring containment over character lists (Python `needle in hay`). -/
def containsChars (needle : List Char) : List Char → Bool
  | [] => startsWithChars needle []
  | h :: hs => startsWithChars needle (h :: hs) || containsChars needle hs

/-- Lowercase a string character-wise (Python str.lower on the ASCII
commands the agent handles). -/
def lowerStr (s : String) : List Char := s.toList.map Char.toLower

/-- Executor._is_blocked_command, executor.py lines 349-355: some entry of
the blocklist, lowercased, is a substring of the lowercased command. -/
def is_blocked_command (blocked_commands : List String) (command : String) : Bool :=
  blocked_commands.any fun blocked => containsChars (lowerStr blocked) (lowerStr command)

/-! ## Shell handler (executor.py lines 179-216)

The handler first rejects an empty command, then consults the blocklist,
and only then spawns a child through the system shell.  What the child
does is supplied as an explicit `SpawnOutcome`; the Bool in the return
value records whether a child process was spawned at all. -/

/-- Behaviour of the spawned child: the spawn call raised, or the child
ran to completion with a return code and captured output streams. -/
inductive SpawnOutcome
  | raised (msg : String)
  | finished (returncode : Int) (out err : String)
  deriving DecidableEq, Repr

/-- Executor._execute_shell, executor.py lines 179-216, as a function of
the blocklist, the payload command, the incoming result record and the
child behaviour.  Returns the updated result and whether a child process
was spawned. -/
def execute_shell (blocked_commands : List String) (command : String)
    (r : TaskResult) (w : SpawnOutcome) : TaskResult × Bool :=
  if command = "" then
    ({ r with status := .failed, error := some "No command provided" }, false)
  else if is_blocked_command blocked_commands command then
    ({ r with status := .failed, error := some "Command blocked by security policy" }, false)
  else
    match w with
    | .raised msg => ({ r with status := .failed, error := some msg }, true)
    | .finished rc out err =>
        ({ r with
            exit_code := some rc
            stdout := out
            stderr := err
            status := if rc = 0 then .completed else .failed }, true)

/-- Fresh result record as created by Executor.submit (executor.py lines
112-115): status PENDING, every other field at its default. -/
def initResult (task_id : String) : TaskResult :=
  { task_id := task_id, status := .pending }

/-! ## Executor concurrency gate (executor.py lines 85-159)

`_run_task` acquires a counting semaphore of `max_concurrent_tasks`
permits before stamping a task RUNNING, and stamps a terminal status
(in the handler, or in the timeout / cancellation / exception arms)
before the `async with` block releases the permit.  The state of the
results map is embedded as an association of task ids to statuses; the
semaphore discipline appears as the guard of the `start` transition:
a task enters RUNNING only while fewer than `max_concurrent_tasks`
tasks are RUNNING. -/

/-- Executor results map, projected to the per-task status. -/
abbrev ExecState := List (String × TaskStatus)

/-- Number of tasks currently in the RUNNING state. -/
def countRunning (s : ExecState) : Nat :=
  (s.filter fun p => p.2 == TaskStatus.running).length

/-- One transition of the executor:
submit creates a PENDING entry (executor.py lines 112-115); start moves a
PENDING entry to RUNNING under the semaphore guard (lines 125-128); finish
moves a RUNNING entry to a terminal status (lines 130-154 and the
handlers). -/
inductive ExecStep (cfg : ExecutorConfig) : ExecState → ExecState → Prop
  | submit (s : ExecState) (id : String) :
      ExecStep cfg s ((id, .pending) :: s)
  | start (l r : ExecState) (id : String)
      (hgate : countRunning (l ++ (id, .pending) :: r) < cfg.max_concurrent_tasks) :
      ExecStep cfg (l ++ (id, .pending) :: r) (l ++ (id, .running) :: r)
  | finish (l r : ExecState) (id : String) (t : TaskStatus)
      (hterm : t.isTerminal = true) :
      ExecStep cfg (l ++ (id, .running) :: r) (l ++ (id, t) :: r)

/-- Executor states reachable from the empty results map. -/
inductive ExecReachable (cfg : ExecutorConfig) : ExecState → Prop
  | init : ExecReachable cfg []
  | step {s t : ExecState} : ExecReachable cfg s → ExecStep cfg s t → ExecReachable cfg t

/-! ## Task cancellation (executor.py lines 123-167)

Executor.cancel looks the task up in _running_tasks and calls
asyncio.Task.cancel, which raises CancelledError at the coroutine's
current suspension point.  Where that point lies decides the effect:

* before the coroutine body has started, or while it awaits the
  semaphore in the `async with` header at line 125: the CancelledError
  is raised outside the try of lines 138-154, so the coroutine unwinds
  without touching the result record (it stays PENDING), the handler is
  never invoked, no semaphore permit is ever held, and the finally of
  lines 155-156 - being inside the with block - never pops the
  _running_tasks entry;
* while the handler runs inside asyncio.wait_for at lines 139-142: the
  except arm of lines 147-149 marks the result CANCELLED, the finally
  pops _running_tasks, and leaving the with block releases the permit. -/

/-- Suspension point of a submitted task's coroutine when the
CancelledError from Executor.cancel lands. -/
inductive CancelPoint
  | beforeStart
  | atGateWait
  | duringHandler
  deriving DecidableEq, Repr

/-- Observable effect of a cancellation on the task. -/
structure CancelOutcome where
  finalStatus : TaskStatus
  handlerInvoked : Bool
  gateHeldAtEnd : Bool
  removedFromRunningMap : Bool
  deriving DecidableEq, Repr

/-- Effect of Executor.cancel on a submitted task (whose result record is
PENDING, set by submit at lines 112-115) by cancellation point. -/
def cancelSubmittedTask : CancelPoint → CancelOutcome
  | .beforeStart => ⟨.pending, false, false, false⟩
  | .atGateWait => ⟨.pending, false, false, false⟩
  | .duringHandler => ⟨.cancelled, true, false, true⟩

/-! ## Association-list primitives shared by the embedded dict-backed
registries (handler registry, scheduler map).  Python dicts keep one
value per key; the embedded maps are association lists whose operations
preserve key uniqueness. -/

/-- Dict lookup (first binding of the key). -/
def alookup {β : Type} (k : String) : List (String × β) → Option β
  | [] => none
  | p :: ps => if p.1 = k then some p.2 else alookup k ps

/-- Dict assignment to an existing key. -/
def replaceVal {β : Type} (k : String) (v : β) (l : List (String × β)) :
    List (String × β) :=
  l.map fun p => if p.1 = k then (p.1, v) else p

/-- Dict key removal. -/
def removeKey {β : Type} (k : String) (l : List (String × β)) : List (String × β) :=
  l.filter fun p => p.1 != k

/-! ## Connection manager (src/pi_agent/connection.py)

The outbound path is a FIFO queue drained by `_send_loop`.  The queue is
created at line 86 as `asyncio.Queue()` with no maxsize argument, hence
unbounded; it lives on the manager object and is NOT cleared when the
connection drops, so its contents persist across reconnects.  Message
payloads and timestamps are elided: the checked claims only look at the
message kind. -/

/-- Connection state enumeration, connection.py lines 27-33. -/
inductive ConnectionState
  | disconnected
  | connecting
  | connected
  | reconnecting
  deriving DecidableEq, Repr

/-- Outbound message, projected to its kind (connection.py lines 35-56;
payload and timestamp elided). -/
structure Msg where
  msg_type : String
  deriving DecidableEq, Repr

/-- The outbound send queue: FIFO list of queued messages. -/
structure SendQueue where
  items : List Msg
  deriving DecidableEq, Repr

/-- The queue as constructed in ConnectionManager.__init__ (line 86):
empty, and with no capacity bound. -/
def emptyQueue : SendQueue := ⟨[]⟩

/-- ConnectionManager.send, lines 105-108: build the message and await
queue.put; on an unbounded asyncio.Queue the put always appends and never
raises QueueFull. -/
def send (q : SendQueue) (m : Msg) : SendQueue := ⟨q.items ++ [m]⟩

/-- n consecutive calls to send with the same message. -/
def sendN : Nat → SendQueue → Msg → SendQueue
  | 0, q, _ => q
  | n + 1, q, m => sendN n (send q m) m

/-- The registration envelope enqueued by _send_registration, lines
178-206 (its payload is elided with the rest). -/
def registerMsg : Msg := ⟨"register"⟩

/-- ConnectionManager._connect on success, lines 146-162: the state
becomes CONNECTED and _send_registration enqueues the register envelope
at the tail of the persistent outbound queue. -/
def connectEnqueueRegister (q : SendQueue) : SendQueue := send q registerMsg

/-- Envelopes written on one connection, in order: _send_loop (lines
222-236) drains the queue FIFO, so the wire sees the queue contents at
connect time (preQueue), then the register envelope, then whatever is
enqueued after registration (laterSends). -/
def connectionWireTrace (preQueue laterSends : List Msg) : List Msg :=
  (laterSends.foldl send (connectEnqueueRegister ⟨preQueue⟩)).items

/-! ## Send loop error handling (connection.py lines 222-236)

Each iteration of `_send_loop` awaits the queue with a 1 s timeout and
writes the message to the websocket.  All three outcomes of an iteration
are modelled: the get timed out, the write succeeded, or the write
raised.  The except-Exception arm only logs; it does not touch `_state`
and the while loop proceeds to the next iteration. -/

/-- Outcome of one send-loop iteration attempt. -/
inductive SendAttempt
  | timedOut
  | wrote
  | raised (msg : String)
  deriving DecidableEq, Repr

/-- Connection-manager state visible to the send loop: `_state`, the
outbound queue, the envelopes already written to the transport, and the
`_running` flag. -/
structure LoopState where
  connState : ConnectionState
  queue : SendQueue
  wire : List Msg
  runningFlag : Bool
  deriving DecidableEq, Repr

/-- One iteration of ConnectionManager._send_loop, lines 224-236.
Timeout: continue.  Write ok: the dequeued envelope goes on the wire.
Write raised: the error is logged, the dequeued envelope is lost, and
the loop continues; `_state` is not modified in any branch.  The Bool is
whether the while loop runs another iteration. -/
def sendLoopIter (s : LoopState) (a : SendAttempt) : LoopState × Bool :=
  match a with
  | .timedOut => (s, s.runningFlag)
  | .wrote =>
      match s.queue.items with
      | [] => (s, s.runningFlag)
      | m :: rest => ({ s with queue := ⟨rest⟩, wire := s.wire ++ [m] }, s.runningFlag)
  | .raised _ =>
      match s.queue.items with
      | [] => (s, s.runningFlag)
      | _ :: rest => ({ s with queue := ⟨rest⟩ }, s.runningFlag)

/-- The finally block of ConnectionManager._connect, lines 174-176: when
the transport itself closes (both loops end), the state is set to
DISCONNECTED; _run (lines 133-144) then enters the reconnect cycle. -/
def connectCleanup (s : LoopState) : LoopState :=
  { s with connState := .disconnected }

/-! ## Handler dispatch (connection.py lines 99-103 and 238-249)

`on` appends the handler to the list stored under its kind, creating the
entry on first registration.  `_dispatch` fetches the stored list for
the message kind - the list object itself, not a copy - and extends it
in place with the wildcard list before iterating, so when the kind has
an entry the extension is visible in the registry on the next dispatch
of that kind; when the kind has no entry, dict.get returns a fresh list
and the registry is untouched.  Handlers are identified here by numeric
labels.  Each handler runs inside its own try/except (lines 243-249), so
a raising handler is logged and the remaining handlers still run; the
invocation sequence is unaffected by handler exceptions and the
connection is not closed. -/

/-- The handler registry self._handlers, connection.py line 87. -/
abbrev HandlerRegistry := List (String × List Nat)

/-- ConnectionManager.on, lines 99-103. -/
def onRegister (d : HandlerRegistry) (kind : String) (h : Nat) : HandlerRegistry :=
  match alookup kind d with
  | none => d ++ [(kind, [h])]
  | some hs => replaceVal kind (hs ++ [h]) d

/-- ConnectionManager._dispatch, lines 238-249: the list of handlers
invoked for one message of the given kind, in order, and the registry
after the dispatch (mutated by the in-place extend when the kind has an
entry). -/
def dispatchMsg (d : HandlerRegistry) (kind : String) : List Nat × HandlerRegistry :=
  match alookup kind d with
  | none => ((alookup "*" d).getD [], d)
  | some hs =>
      let ws := if kind = "*" then hs else (alookup "*" d).getD []
      (hs ++ ws, replaceVal kind (hs ++ ws) d)

/-! ## Scheduler (src/pi_agent/scheduler.py)

A min-heap of ScheduledTask keyed by run_at plus the authoritative map
self._tasks.  The heap is embedded as a run_at-sorted list: heappush is
ordered insertion and heappop takes the head.  Timestamps are `Int`;
payload and created_at are elided (no checked claim reads them). -/

/-- ScheduledTask, scheduler.py lines 17-25 (payload, created_at
elided). -/
structure SchedEntry where
  run_at : Int
  task_id : String
  task_type : String
  repeat_interval : Option Int
  deriving DecidableEq, Repr

/-- The authoritative map self._tasks. -/
abbrev SchedMap := List (String × SchedEntry)

/-- Scheduler.cancel, lines 87-94: remove the map entry if present; the
heap is left untouched. -/
def schedCancel (tasks : SchedMap) (task_id : String) : SchedMap × Bool :=
  match alookup task_id tasks with
  | none => (tasks, false)
  | some _ => (removeKey task_id tasks, true)

/-- heappush on the embedded heap. -/
def insertByRunAt (e : SchedEntry) : List SchedEntry → List SchedEntry
  | [] => [e]
  | x :: xs => if e.run_at < x.run_at then e :: x :: xs else x :: insertByRunAt e xs

/-- Validation of a popped heap entry against the authoritative map,
scheduler.py lines 176-184: discard when the task_id is no longer in the
map (cancelled) or when the map entry's run_at differs (superseded by a
reschedule); otherwise the map's entry is the one handed to callbacks. -/
def validatePopped (tasks : SchedMap) (entry : SchedEntry) : Option SchedEntry :=
  match alookup entry.task_id tasks with
  | none => none
  | some task => if task.run_at = entry.run_at then some task else none

/-- Handling of one popped heap entry inside _process_queue (lines
174-210): validate against the map; on failure nothing fires and nothing
changes; on success the map's entry fires (first component - it is the
value handed to every callback), and afterwards a recurring entry
(Python truthy check at line 196: a None or zero interval does not
recur, and the membership re-check of line 198 guards the push) is
replaced in the map by a fresh entry at now + interval which is also
pushed on the heap (second component), while a one-shot entry is removed
from the map. -/
def processOne (now : Int) (e : SchedEntry) (tasks : SchedMap) :
    Option SchedEntry × List SchedEntry × SchedMap :=
  match validatePopped tasks e with
  | none => (none, [], tasks)
  | some task =>
    match task.repeat_interval with
    | some p =>
      if p = 0 then (some task, [], removeKey task.task_id tasks)
      else
        match alookup task.task_id tasks with
        | some _ =>
          let fresh : SchedEntry :=
            { run_at := now + p, task_id := task.task_id,
              task_type := task.task_type, repeat_interval := some p }
          (some task, [fresh], replaceVal task.task_id fresh tasks)
        | none => (some task, [], tasks)
    | none => (some task, [], removeKey task.task_id tasks)

/-- The pop loop of _process_queue, with fuel bounding the iterations:
pop the head while it is due, handle it with processOne, push any fresh
recurring entry back into the heap, recurse.  Returns (fired, final
heap, final map). -/
def processDue (now : Int) : Nat → List SchedEntry → SchedMap →
    List SchedEntry × List SchedEntry × SchedMap
  | 0, queue, tasks => ([], queue, tasks)
  | _ + 1, [], tasks => ([], [], tasks)
  | fuel + 1, e :: rest, tasks =>
    if now < e.run_at then ([], e :: rest, tasks)
    else
      let step := processOne now e tasks
      let out := processDue now fuel
          (step.2.1.foldl (fun q x => insertByRunAt x q) rest) step.2.2
      (step.1.toList ++ out.1, out.2)

/-- Well-formedness of the scheduler map: every binding stores an entry
whose task_id is its key.  schedule (lines 63-76), reschedule (lines
96-113) and the loop's own updates all bind entries under their own
task_id. -/
def SchedMapWF (tasks : SchedMap) : Prop :=
  ∀ p ∈ tasks, (p : String × SchedEntry).2.task_id = p.1

/-! ## Plan execution (src/pi_agent/main.py lines 106-186)

_handle_execute_task runs the plan's commands sequentially: for each
non-empty command it submits a derived shell task, polls until the
result is terminal, then emits a command_result envelope, task_output
envelopes for the non-empty streams, and either stops with a failure
task_complete (when the exit code is not 0 - in Python `None != 0` is
also true) or proceeds; after the last command it emits the success
task_complete.  Each command's terminal executor result is supplied
alongside the command string; the loop's enumerate counter is the index
argument. -/

/-- The fields of a terminal TaskResult that the plan loop reads, plus
the already-computed duration in milliseconds (line 150). -/
structure ShellOutcome where
  exit_code : Option Int
  stdout : String
  stderr : String
  error : Option String
  duration_ms : Nat
  deriving DecidableEq, Repr

/-- Outbound envelopes produced by the plan loop (payload fields as in
main.py lines 145-185; the success task_complete carries exit_code 0 and
no error field, modelled as error = none). -/
inductive PlanEnv
  | command_result (task_id : String) (command_index : Nat) (command : String)
      (exit_code : Int) (duration_ms : Nat)
  | task_output (task_id : String) (command_index : Nat) (stream content : String)
  | task_complete (task_id : String) (success : Bool) (exit_code : Option Int)
      (error : Option String)
  deriving DecidableEq, Repr

/-- Python `result.error or result.stderr` (line 175): the error text
unless it is None or empty, else the stderr text. -/
def orElseStr : Option String → String → String
  | none, s => s
  | some e, s => if e = "" then s else e

/-- Python `result.exit_code or 0` (line 149): 0 when the exit code is
None (or 0), else the exit code. -/
def orZero : Option Int → Int
  | none => 0
  | some c => c

/-- Envelopes emitted for one terminal command at the given index,
main.py lines 144-167: command_result, then task_output for a non-empty
stdout, then task_output for a non-empty stderr. -/
def emitForCommand (tid : String) (idx : Nat) (command : String)
    (r : ShellOutcome) : List PlanEnv :=
  [PlanEnv.command_result tid idx command (orZero r.exit_code) r.duration_ms]
    ++ (if r.stdout = "" then [] else [PlanEnv.task_output tid idx "stdout" r.stdout])
    ++ (if r.stderr = "" then [] else [PlanEnv.task_output tid idx "stderr" r.stderr])

/-- PiAgent._handle_execute_task, lines 106-186: the full envelope trace
of one plan, given each command's terminal result. -/
def executeTaskTrace (tid : String) : List (String × ShellOutcome) → Nat → List PlanEnv
  | [], _ => [PlanEnv.task_complete tid true (some 0) none]
  | (command, r) :: rest, idx =>
    if command = "" then executeTaskTrace tid rest (idx + 1)
    else if r.exit_code = some 0 then
      emitForCommand tid idx command r ++ executeTaskTrace tid rest (idx + 1)
    else
      emitForCommand tid idx command r
        ++ [PlanEnv.task_complete tid false r.exit_code
              (some (orElseStr r.error r.stderr))]

/-- Command index carried by a per-command envelope; none for
task_complete. -/
def planEnvIdx : PlanEnv → Option Nat
  | .command_result _ i _ _ _ => some i
  | .task_output _ i _ _ => some i
  | .task_complete _ _ _ _ => none

/-- Whether an envelope is a task_complete. -/
def isCompleteEnv : PlanEnv → Bool
  | .task_complete _ _ _ _ => true
  | _ => false

/-- Ordering relation between envelopes by command index: every index
the first envelope carries is at most every index the second carries
(vacuous for task_complete). -/
def idxLe (a b : PlanEnv) : Prop :=
  ∀ i j, planEnvIdx a = some i → planEnvIdx b = some j → i ≤ j

end PiAgent

namespace PiAgent

/-! Helper lemmas about the embedded structures. -/

theorem countRunning_append (l r : ExecState) :
    countRunning (l ++ r) = countRunning l + countRunning r := by
  simp [countRunning, List.filter_append]

theorem countRunning_cons (p : String × TaskStatus) (s : ExecState) :
    countRunning (p :: s)
      = (if p.2 == TaskStatus.running then 1 else 0) + countRunning s := by
  by_cases h : p.2 == TaskStatus.running <;>
    simp [countRunning, List.filter_cons, h]
  omega

theorem foldl_send_items (ms : List Msg) (q : SendQueue) :
    (ms.foldl send q).items = q.items ++ ms := by
  induction ms generalizing q with
  | nil => simp
  | cons m rest ih => simp [List.foldl_cons, ih, send]

theorem sendN_length (n : Nat) (q : SendQueue) (m : Msg) :
    (sendN n q m).items.length = q.items.length + n := by
  induction n generalizing q with
  | zero => simp [sendN]
  | succ k ih => simp [sendN, ih, send]; omega

/-- C1: for a shell task, an empty command fails with "No command
provided"; a non-empty command matching the blocklist case-insensitively
as a substring fails with "Command blocked by security policy" and no
child process is spawned. -/
theorem shell_empty_and_blocked_commands_fail (blocked_commands : List String)
    (command : String) (r : TaskResult) (w : SpawnOutcome) :
    (command = "" →
      (execute_shell blocked_commands command r w).1.status = TaskStatus.failed ∧
      (execute_shell blocked_commands command r w).1.error = some "No command provided") ∧
    (command ≠ "" → is_blocked_command blocked_commands command = true →
      (execute_shell blocked_commands command r w).1.status = TaskStatus.failed ∧
      (execute_shell blocked_commands command r w).1.error
        = some "Command blocked by security policy" ∧
      (execute_shell blocked_commands command r w).2 = false) := by
  constructor
  · intro h
    subst h
    simp [execute_shell]
  · intro hne hblk
    simp [execute_shell, hne, hblk]

/-- Witness for C1 at concrete inputs: the empty command, and an
upper-case variant of the default-blocked "rm -rf /". -/
theorem shell_empty_and_blocked_commands_fail_witness :
    ((execute_shell default_blocked_commands "" (initResult "t1")
        (SpawnOutcome.finished 0 "" "")).1.status = TaskStatus.failed ∧
      (execute_shell default_blocked_commands "" (initResult "t1")
        (SpawnOutcome.finished 0 "" "")).1.error = some "No command provided") ∧
    ((execute_shell default_blocked_commands "sudo RM -RF / now" (initResult "t2")
        (SpawnOutcome.finished 0 "" "")).1.status = TaskStatus.failed ∧
      (execute_shell default_blocked_commands "sudo RM -RF / now" (initResult "t2")
        (SpawnOutcome.finished 0 "" "")).1.error
        = some "Command blocked by security policy" ∧
      (execute_shell default_blocked_commands "sudo RM -RF / now" (initResult "t2")
        (SpawnOutcome.finished 0 "" "")).2 = false) :=
  ⟨(shell_empty_and_blocked_commands_fail default_blocked_commands "" (initResult "t1")
      (SpawnOutcome.finished 0 "" "")).1 rfl,
   (shell_empty_and_blocked_commands_fail default_blocked_commands "sudo RM -RF / now"
      (initResult "t2") (SpawnOutcome.finished 0 "" "")).2 (by decide) (by decide)⟩

/-- C2: in every reachable executor state the number of RUNNING tasks is
at most the configured max_concurrent_tasks, however many tasks have been
submitted. -/
theorem running_tasks_at_most_max_concurrent (cfg : ExecutorConfig) (s : ExecState)
    (h : ExecReachable cfg s) : countRunning s ≤ cfg.max_concurrent_tasks := by
  induction h with
  | init => simp [countRunning]
  | step hr hstep ih =>
    cases hstep with
    | submit s id =>
        simpa [countRunning_cons] using ih
    | start l r id hgate =>
        have e1 : countRunning (l ++ ((id, TaskStatus.running)) :: r)
            = countRunning l + (1 + countRunning r) := by
          simp [countRunning_append, countRunning_cons]
        have e2 : countRunning (l ++ ((id, TaskStatus.pending)) :: r)
            = countRunning l + countRunning r := by
          simp [countRunning_append, countRunning_cons]
        rw [e2] at hgate
        rw [e1]
        omega
    | finish l r id t hterm =>
        have ht : (t == TaskStatus.running) = false := by
          cases t <;> simp_all [TaskStatus.isTerminal]
        have e1 : countRunning (l ++ ((id, t)) :: r)
            = countRunning l + countRunning r := by
          simp [countRunning_append, countRunning_cons, ht]
        have e2 : countRunning (l ++ ((id, TaskStatus.running)) :: r)
            = countRunning l + (1 + countRunning r) := by
          simp [countRunning_append, countRunning_cons]
        rw [e2] at ih
        rw [e1]
        omega

/-- Witness for C2 at a concrete reachable state: one submitted task and
one running task under the default configuration. -/
theorem running_tasks_at_most_max_concurrent_witness :
    ExecReachable {} [("a", TaskStatus.running)] ∧
      countRunning [("a", TaskStatus.running)]
        ≤ ({} : ExecutorConfig).max_concurrent_tasks :=
  have hsub : ExecStep {} [] [("a", TaskStatus.pending)] :=
    ExecStep.submit [] "a"
  have hstart : ExecStep {} [("a", TaskStatus.pending)] [("a", TaskStatus.running)] :=
    ExecStep.start [] [] "a" (by decide)
  have hreach : ExecReachable {} [("a", TaskStatus.running)] :=
    ExecReachable.step (ExecReachable.step ExecReachable.init hsub) hstart
  ⟨hreach, running_tasks_at_most_max_concurrent {} [("a", TaskStatus.running)] hreach⟩

/-- C3 counterexample: a task_result envelope enqueued before the
(re)connect is still at the head of the persistent queue when the
connection is established, so it is written to the transport before the
register envelope: register is not the first envelope on that
connection. -/
theorem register_first_counterexample :
    (connectionWireTrace [⟨"task_result"⟩] []).head? = some ⟨"task_result"⟩ ∧
      (⟨"task_result"⟩ : Msg) ≠ registerMsg := by
  constructor
  · rfl
  · intro h
    simp [registerMsg] at h

/-- C3 amended: on a successful connection the register envelope is
enqueued before any envelope enqueued after the connection is
established, so the wire order is exactly: the queue contents from before
the connection, then register, then the post-connect envelopes; register
is the first envelope sent precisely when the outbound queue is empty at
connect time. -/
theorem register_precedes_postconnect_sends (preQueue laterSends : List Msg) :
    connectionWireTrace preQueue laterSends
        = preQueue ++ registerMsg :: laterSends ∧
      (preQueue = [] →
        (connectionWireTrace preQueue laterSends).head? = some registerMsg) := by
  have htr : connectionWireTrace preQueue laterSends
      = preQueue ++ registerMsg :: laterSends := by
    simp [connectionWireTrace, foldl_send_items, connectEnqueueRegister, send]
  refine ⟨htr, fun hpre => ?_⟩
  subst hpre
  simp [htr]

/-- Witness for C3 (amended) with an empty queue at connect time and one
heartbeat enqueued afterwards. -/
theorem register_precedes_postconnect_sends_witness :
    connectionWireTrace [] [⟨"heartbeat"⟩]
        = [] ++ registerMsg :: [⟨"heartbeat"⟩] ∧
      (connectionWireTrace [] [⟨"heartbeat"⟩]).head? = some registerMsg :=
  ⟨(register_precedes_postconnect_sends [] [⟨"heartbeat"⟩]).1,
   (register_precedes_postconnect_sends [] [⟨"heartbeat"⟩]).2 rfl⟩

/-- C5 counterexample: the queue is created without a capacity bound, so
257 consecutive sends all succeed and leave 257 envelopes queued,
exceeding the claimed bound of 256; no send fails with QueueFull. -/
theorem send_queue_bound_counterexample :
    (sendN 257 emptyQueue ⟨"heartbeat"⟩).items.length = 257 ∧ 256 < 257 := by
  refine ⟨?_, by omega⟩
  rw [sendN_length]
  rfl

/-- C5 amended: the outbound queue is unbounded; send always appends the
envelope to the queue tail and never fails, and after n sends on an
initially empty queue the queue holds exactly n envelopes, with no bound
enforced at 256 or anywhere else. -/
theorem send_queue_unbounded (q : SendQueue) (m : Msg) (n : Nat) :
    send q m = ⟨q.items ++ [m]⟩ ∧
      (sendN n emptyQueue m).items.length = n := by
  refine ⟨rfl, ?_⟩
  rw [sendN_length]
  simp [emptyQueue]

/-- C7 counterexample: with the connection CONNECTED and one envelope
queued, a raising write leaves the state CONNECTED (not DISCONNECTED) and
the send loop keeps running. -/
theorem send_error_disconnects_counterexample :
    ((sendLoopIter ⟨.connected, ⟨[⟨"heartbeat"⟩]⟩, [], true⟩ (.raised "boom")).1.connState
        = ConnectionState.connected) ∧
      ConnectionState.connected ≠ ConnectionState.disconnected ∧
      (sendLoopIter ⟨.connected, ⟨[⟨"heartbeat"⟩]⟩, [], true⟩ (.raised "boom")).2 = true := by
  refine ⟨rfl, by decide, rfl⟩

/-- C7 amended: an error while writing an envelope is caught and logged
inside the send loop; the connection state is unchanged (so it remains
CONNECTED), nothing is written to the wire, the dequeued envelope is
dropped, and the loop continues iff the running flag is still set.  The
transition to DISCONNECTED happens only in the cleanup of _connect, once
the transport itself has closed. -/
theorem send_error_logged_and_loop_continues (s : LoopState) (e : String) :
    (sendLoopIter s (.raised e)).1.connState = s.connState ∧
      (sendLoopIter s (.raised e)).1.wire = s.wire ∧
      (sendLoopIter s (.raised e)).2 = s.runningFlag ∧
      (connectCleanup s).connState = ConnectionState.disconnected := by
  cases h : s.queue.items <;>
    simp [sendLoopIter, connectCleanup, h]

/-- C6 counterexample: cancelling a submitted task that is still PENDING,
waiting on the concurrency gate, leaves its recorded status PENDING - it
is not moved to CANCELLED as the claim states, because the except
CancelledError arm of _run_task only covers the handler await. -/
theorem cancel_pending_counterexample :
    (cancelSubmittedTask CancelPoint.atGateWait).finalStatus = TaskStatus.pending ∧
      TaskStatus.pending ≠ TaskStatus.cancelled :=
  ⟨rfl, by decide⟩

/-- C6 amended: cancelling a submitted task that has not yet entered
RUNNING (not yet started, or waiting on the gate) aborts its coroutine,
so the handler is never invoked and no gate permit is ever held for it;
but its recorded result stays PENDING rather than becoming CANCELLED,
and its _running_tasks entry is not removed.  Only a cancellation that
lands while the handler is running marks the result CANCELLED. -/
theorem cancel_pending_task_effect :
    cancelSubmittedTask CancelPoint.beforeStart
        = ⟨TaskStatus.pending, false, false, false⟩ ∧
      cancelSubmittedTask CancelPoint.atGateWait
        = ⟨TaskStatus.pending, false, false, false⟩ ∧
      cancelSubmittedTask CancelPoint.duringHandler
        = ⟨TaskStatus.cancelled, true, false, true⟩ :=
  ⟨rfl, rfl, rfl⟩

/-- C9: _dispatch fetches the stored handler list and extends it in
place, so the wildcard handlers leak into the per-kind registration
list.  With one handler (0) registered for kind task and one wildcard
handler (1), the first task envelope is dispatched to 0 then 1 as the
spec says, but the registry now stores both under task, and a second
task envelope invokes the wildcard handler twice: 0, 1, 1. -/
theorem dispatch_extend_mutates_registry :
    (dispatchMsg [("task", [0]), ("*", [1])] "task").1 = [0, 1] ∧
      (dispatchMsg [("task", [0]), ("*", [1])] "task").2
        = [("task", [0, 1]), ("*", [1])] ∧
      (dispatchMsg (dispatchMsg [("task", [0]), ("*", [1])] "task").2 "task").1
        = [0, 1, 1] := by
  refine ⟨rfl, by decide, rfl⟩

/-! Association-list and scheduler helper lemmas. -/

theorem alookup_mem {β : Type} {k : String} {v : β} {l : List (String × β)}
    (h : alookup k l = some v) : (k, v) ∈ l := by
  induction l with
  | nil => simp [alookup] at h
  | cons p ps ih =>
    by_cases hk : p.1 = k
    · have hv : p.2 = v := by simpa [alookup, hk] using h
      exact List.mem_cons.mpr (Or.inl (by cases p; simp_all))
    · have h2 : alookup k ps = some v := by simpa [alookup, hk] using h
      exact List.mem_cons_of_mem p (ih h2)

theorem alookup_map_none {β : Type} {id : String} (f : String × β → String × β)
    (hf : ∀ p, (f p).1 = p.1) :
    ∀ {l : List (String × β)}, alookup id l = none → alookup id (l.map f) = none := by
  intro l
  induction l with
  | nil => intro h; simp [alookup]
  | cons p ps ih =>
    intro h
    have hk1 : ¬ p.1 = id := fun hc => by simp [alookup, hc] at h
    have h2 : alookup id ps = none := by simpa [alookup, hk1] using h
    have hfp : ¬ (f p).1 = id := by rw [hf p]; exact hk1
    simp only [List.map_cons, alookup, if_neg hfp]
    exact ih h2

theorem alookup_filter_none {β : Type} {id : String} (q : String × β → Bool) :
    ∀ {l : List (String × β)}, alookup id l = none → alookup id (l.filter q) = none := by
  intro l
  induction l with
  | nil => intro h; simp [alookup]
  | cons p ps ih =>
    intro h
    have hk1 : ¬ p.1 = id := fun hc => by simp [alookup, hc] at h
    have h2 : alookup id ps = none := by simpa [alookup, hk1] using h
    by_cases hq : q p
    · simp only [List.filter_cons, if_pos hq, alookup, if_neg hk1]
      exact ih h2
    · simp only [List.filter_cons, if_neg hq]
      exact ih h2

theorem alookup_replaceVal_none {β : Type} {id k : String} {v : β}
    {l : List (String × β)} (h : alookup id l = none) :
    alookup id (replaceVal k v l) = none :=
  alookup_map_none _ (fun p => by by_cases hp : p.1 = k <;> simp [hp]) h

theorem alookup_removeKey_none {β : Type} {id k : String}
    {l : List (String × β)} (h : alookup id l = none) :
    alookup id (removeKey k l) = none :=
  alookup_filter_none _ h

theorem schedMapWF_removeKey {k : String} {l : SchedMap}
    (h : SchedMapWF l) : SchedMapWF (removeKey k l) := by
  intro p hp
  exact h p (List.mem_of_mem_filter hp)

theorem schedMapWF_replaceVal {k : String} {v : SchedEntry} {l : SchedMap}
    (h : SchedMapWF l) (hv : v.task_id = k) :
    SchedMapWF (replaceVal k v l) := by
  intro p hp
  simp only [replaceVal, List.mem_map] at hp
  obtain ⟨q, hq, hfq⟩ := hp
  by_cases hqk : q.1 = k
  · rw [if_pos hqk] at hfq
    rw [← hfq]
    simpa [hv] using hqk.symm
  · rw [if_neg hqk] at hfq
    rw [← hfq]
    exact h q hq

theorem validatePopped_none_iff (tasks : SchedMap) (e : SchedEntry) :
    validatePopped tasks e = none ↔
      (alookup e.task_id tasks = none ∨
        ∃ t, alookup e.task_id tasks = some t ∧ t.run_at ≠ e.run_at) := by
  cases h : alookup e.task_id tasks with
  | none => simp [validatePopped, h]
  | some t =>
    by_cases hr : t.run_at = e.run_at <;> simp [validatePopped, h, hr]

theorem validatePopped_some (tasks : SchedMap) (e : SchedEntry)
    (task : SchedEntry) (h : validatePopped tasks e = some task) :
    alookup e.task_id tasks = some task ∧ task.run_at = e.run_at := by
  cases hl : alookup e.task_id tasks with
  | none => simp [validatePopped, hl] at h
  | some t =>
    by_cases hr : t.run_at = e.run_at
    · have : t = task := by simpa [validatePopped, hl, hr] using h
      subst this
      exact ⟨rfl, hr⟩
    · simp [validatePopped, hl, hr] at h

theorem processOne_of_invalid (now : Int) (e : SchedEntry) (tasks : SchedMap)
    (h : validatePopped tasks e = none) :
    processOne now e tasks = (none, [], tasks) := by
  simp [processOne, h]

theorem processOne_preserves (now : Int) (e : SchedEntry) (tasks : SchedMap)
    (id : String) (hwf : SchedMapWF tasks) (hnone : alookup id tasks = none) :
    SchedMapWF (processOne now e tasks).2.2 ∧
      alookup id (processOne now e tasks).2.2 = none ∧
      (∀ t, (processOne now e tasks).1 = some t → t.task_id ≠ id) := by
  cases hval : validatePopped tasks e with
  | none =>
    rw [processOne_of_invalid now e tasks hval]
    exact ⟨hwf, hnone, fun t ht => by simp at ht⟩
  | some task =>
    obtain ⟨hlk, _⟩ := validatePopped_some tasks e task hval
    have htid : task.task_id = e.task_id := hwf _ (alookup_mem hlk)
    have hne_id : task.task_id ≠ id := by
      intro hc
      rw [htid] at hc
      rw [hc, hnone] at hlk
      exact absurd hlk (by simp)
    have hfired : ∀ t, some task = some t → t.task_id ≠ id := by
      intro t ht
      cases ht
      exact hne_id
    cases hrep : task.repeat_interval with
    | none =>
      refine ⟨?_, ?_, ?_⟩ <;>
        simp only [processOne, hval, hrep]
      · exact schedMapWF_removeKey hwf
      · exact alookup_removeKey_none hnone
      · exact hfired
    | some p =>
      by_cases hp : p = 0
      · refine ⟨?_, ?_, ?_⟩ <;>
          simp only [processOne, hval, hrep, if_pos hp]
        · exact schedMapWF_removeKey hwf
        · exact alookup_removeKey_none hnone
        · exact hfired
      · cases hlk2 : alookup task.task_id tasks with
        | none =>
          refine ⟨?_, ?_, ?_⟩ <;>
            simp only [processOne, hval, hrep, if_neg hp, hlk2]
          · exact hwf
          · exact hnone
          · exact hfired
        | some old =>
          refine ⟨?_, ?_, ?_⟩ <;>
            simp only [processOne, hval, hrep, if_neg hp, hlk2]
          · exact schedMapWF_replaceVal hwf rfl
          · exact alookup_replaceVal_none hnone
          · exact hfired

theorem processDue_cancelled_not_fired (id : String) (now : Int) :
    ∀ (fuel : Nat) (queue : List SchedEntry) (tasks : SchedMap),
      SchedMapWF tasks → alookup id tasks = none →
      ∀ f ∈ (processDue now fuel queue tasks).1, f.task_id ≠ id := by
  intro fuel
  induction fuel with
  | zero =>
    intro queue tasks hwf hnone f hf
    simp [processDue] at hf
  | succ n ih =>
    intro queue tasks hwf hnone f hf
    cases queue with
    | nil => simp [processDue] at hf
    | cons e rest =>
      by_cases hdue : now < e.run_at
      · simp [processDue, hdue] at hf
      · simp only [processDue, if_neg hdue] at hf
        obtain ⟨hwf2, hnone2, hfire⟩ := processOne_preserves now e tasks id hwf hnone
        rcases List.mem_append.mp hf with h1 | h2
        · cases hstep : (processOne now e tasks).1 with
          | none => rw [hstep] at h1; simp at h1
          | some t =>
            rw [hstep] at h1
            simp at h1
            subst h1
            exact hfire f hstep
        · exact ih _ _ hwf2 hnone2 f h2

/-- C8: a popped heap entry whose task_id is no longer in the
authoritative map, or whose run_at differs from the map entry's run_at,
is discarded before any callback is invoked: validation yields none, the
loop step fires nothing and leaves nothing behind for it; and once a
task_id is absent from the map (as Scheduler.cancel leaves it), no entry
fired by the loop carries that task_id. -/
theorem cancelled_or_stale_entries_never_fire (now : Int) (fuel : Nat)
    (e : SchedEntry) (rest : List SchedEntry) (tasks : SchedMap) (id : String)
    (hdue : e.run_at ≤ now)
    (hbad : alookup e.task_id tasks = none ∨
      ∃ t, alookup e.task_id tasks = some t ∧ t.run_at ≠ e.run_at) :
    validatePopped tasks e = none ∧
      processDue now (fuel + 1) (e :: rest) tasks = processDue now fuel rest tasks ∧
      (SchedMapWF tasks → alookup id tasks = none →
        ∀ f ∈ (processDue now (fuel + 1) (e :: rest) tasks).1, f.task_id ≠ id) := by
  have hval : validatePopped tasks e = none :=
    (validatePopped_none_iff tasks e).mpr hbad
  have hnotlt : ¬ now < e.run_at := not_lt.mpr hdue
  refine ⟨hval, ?_, ?_⟩
  · simp [processDue, if_neg hnotlt, processOne_of_invalid now e tasks hval]
  · intro hwf hnone
    exact processDue_cancelled_not_fired id now (fuel + 1) (e :: rest) tasks hwf hnone

/-- Witness for C8: a due entry for a cancelled task (empty map) is
discarded and nothing fires. -/
theorem cancelled_or_stale_entries_never_fire_witness :
    validatePopped [] ⟨5, "x", "shell", none⟩ = none ∧
      processDue 10 1 [⟨5, "x", "shell", none⟩] [] = processDue 10 0 [] [] ∧
      (SchedMapWF ([] : SchedMap) → alookup "x" ([] : SchedMap) = none →
        ∀ f ∈ (processDue 10 1 [⟨5, "x", "shell", none⟩] []).1, f.task_id ≠ "x") :=
  cancelled_or_stale_entries_never_fire 10 0 ⟨5, "x", "shell", none⟩ [] [] "x"
    (by decide) (Or.inl rfl)

/-! Plan-execution helper lemmas. -/

theorem isCompleteEnv_false_of_idx {x : PlanEnv} {j : Nat}
    (h : planEnvIdx x = some j) : isCompleteEnv x = false := by
  cases x <;> simp [planEnvIdx, isCompleteEnv] at h ⊢

theorem emitForCommand_idx (tid : String) (idx : Nat) (c : String)
    (r : ShellOutcome) : ∀ x ∈ emitForCommand tid idx c r, planEnvIdx x = some idx := by
  intro x hx
  simp only [emitForCommand, List.mem_append, List.mem_singleton] at hx
  rcases hx with (rfl | hx) | hx
  · rfl
  · by_cases h1 : r.stdout = ""
    · rw [if_pos h1] at hx; simp at hx
    · rw [if_neg h1] at hx; simp at hx; subst hx; rfl
  · by_cases h2 : r.stderr = ""
    · rw [if_pos h2] at hx; simp at hx
    · rw [if_neg h2] at hx; simp at hx; subst hx; rfl

theorem pairwise_const_idx (l : List PlanEnv) (n : Nat)
    (h : ∀ x ∈ l, planEnvIdx x = some n) : l.Pairwise idxLe := by
  induction l with
  | nil => exact List.Pairwise.nil
  | cons a tl ih =>
    refine List.Pairwise.cons ?_ (ih fun x hx => h x (List.mem_cons_of_mem a hx))
    intro b hb
    simp only [idxLe]
    intro i j hi hj
    rw [h a (List.mem_cons_self a tl)] at hi
    rw [h b (List.mem_cons_of_mem a hb)] at hj
    have hi2 : n = i := Option.some.inj hi
    have hj2 : n = j := Option.some.inj hj
    omega

theorem executeTaskTrace_idx_ge (tid : String) :
    ∀ (cmds : List (String × ShellOutcome)) (idx : Nat),
      ∀ e ∈ executeTaskTrace tid cmds idx, ∀ j, planEnvIdx e = some j → idx ≤ j := by
  intro cmds
  induction cmds with
  | nil =>
    intro idx e he j hj
    simp [executeTaskTrace] at he
    subst he
    simp [planEnvIdx] at hj
  | cons cr rest ih =>
    intro idx e he j hj
    obtain ⟨c, r⟩ := cr
    simp only [executeTaskTrace] at he
    by_cases hc : c = ""
    · rw [if_pos hc] at he
      exact Nat.le_of_succ_le (ih (idx + 1) e he j hj)
    · rw [if_neg hc] at he
      by_cases hz : r.exit_code = some 0
      · rw [if_pos hz] at he
        rcases List.mem_append.mp he with h1 | h2
        · have hidx := emitForCommand_idx tid idx c r e h1
          rw [hidx] at hj
          exact Nat.le_of_eq (Option.some.inj hj)
        · exact Nat.le_of_succ_le (ih (idx + 1) e h2 j hj)
      · rw [if_neg hz] at he
        rcases List.mem_append.mp he with h1 | h2
        · have hidx := emitForCommand_idx tid idx c r e h1
          rw [hidx] at hj
          exact Nat.le_of_eq (Option.some.inj hj)
        · simp at h2
          subst h2
          simp [planEnvIdx] at hj

theorem executeTaskTrace_pairwise (tid : String) :
    ∀ (cmds : List (String × ShellOutcome)) (idx : Nat),
      (executeTaskTrace tid cmds idx).Pairwise idxLe := by
  intro cmds
  induction cmds with
  | nil =>
    intro idx
    simp [executeTaskTrace]
  | cons cr rest ih =>
    intro idx
    obtain ⟨c, r⟩ := cr
    simp only [executeTaskTrace]
    by_cases hc : c = ""
    · rw [if_pos hc]
      exact ih (idx + 1)
    · rw [if_neg hc]
      by_cases hz : r.exit_code = some 0
      · rw [if_pos hz]
        refine List.pairwise_append.mpr
          ⟨pairwise_const_idx _ idx (emitForCommand_idx tid idx c r), ih (idx + 1), ?_⟩
        intro a ha b hb
        simp only [idxLe]
        intro i j hi hj
        have hai := emitForCommand_idx tid idx c r a ha
        rw [hai] at hi
        have hi2 : idx = i := Option.some.inj hi
        have hbj := executeTaskTrace_idx_ge tid rest (idx + 1) b hb j hj
        omega
      · rw [if_neg hz]
        refine List.pairwise_append.mpr
          ⟨pairwise_const_idx _ idx (emitForCommand_idx tid idx c r), by simp, ?_⟩
        intro a ha b hb
        simp only [idxLe]
        intro i j hi hj
        simp at hb
        subst hb
        simp [planEnvIdx] at hj

theorem executeTaskTrace_ends (tid : String) :
    ∀ (cmds : List (String × ShellOutcome)) (idx : Nat),
      ∃ tl s ec err,
        executeTaskTrace tid cmds idx = tl ++ [PlanEnv.task_complete tid s ec err] ∧
          ∀ x ∈ tl, isCompleteEnv x = false := by
  intro cmds
  induction cmds with
  | nil =>
    intro idx
    exact ⟨[], true, some 0, none, rfl, by simp⟩
  | cons cr rest ih =>
    intro idx
    obtain ⟨c, r⟩ := cr
    simp only [executeTaskTrace]
    by_cases hc : c = ""
    · rw [if_pos hc]
      exact ih (idx + 1)
    · rw [if_neg hc]
      by_cases hz : r.exit_code = some 0
      · rw [if_pos hz]
        obtain ⟨tl, s, ec, err, heq, htl⟩ := ih (idx + 1)
        refine ⟨emitForCommand tid idx c r ++ tl, s, ec, err, ?_, ?_⟩
        · rw [heq, List.append_assoc]
        · intro x hx
          rcases List.mem_append.mp hx with h1 | h2
          · exact isCompleteEnv_false_of_idx (emitForCommand_idx tid idx c r x h1)
          · exact htl x h2
      · rw [if_neg hz]
        refine ⟨emitForCommand tid idx c r, false, r.exit_code,
          some (orElseStr r.error r.stderr), rfl, ?_⟩
        intro x hx
        exact isCompleteEnv_false_of_idx (emitForCommand_idx tid idx c r x hx)

theorem executeTaskTrace_fail (tid : String) :
    ∀ (cmds : List (String × ShellOutcome)) (idx i : Nat) (hi : i < cmds.length),
      cmds[i].1 ≠ "" →
      cmds[i].2.exit_code ≠ some 0 →
      (∀ k, (hk : k < i) → cmds[k].1 = "" ∨ cmds[k].2.exit_code = some 0) →
      (∀ e ∈ executeTaskTrace tid cmds idx, ∀ j, planEnvIdx e = some j → j ≤ idx + i) ∧
        (executeTaskTrace tid cmds idx).getLast?
          = some (PlanEnv.task_complete tid false cmds[i].2.exit_code
              (some (orElseStr cmds[i].2.error cmds[i].2.stderr))) := by
  intro cmds
  induction cmds with
  | nil =>
    intro idx i hi
    exact absurd hi (by simp)
  | cons cr rest ih =>
    intro idx i hi hne hfail hearlier
    obtain ⟨c, r⟩ := cr
    cases i with
    | zero =>
      simp only [List.getElem_cons_zero] at hne hfail ⊢
      constructor
      · intro e he j hj
        simp only [executeTaskTrace, if_neg hne, if_neg hfail] at he
        rcases List.mem_append.mp he with h1 | h2
        · have hidx := emitForCommand_idx tid idx c r e h1
          rw [hidx] at hj
          have : idx = j := Option.some.inj hj
          omega
        · simp at h2
          subst h2
          simp [planEnvIdx] at hj
      · simp only [executeTaskTrace, if_neg hne, if_neg hfail]
        rw [List.getLast?_append_cons]
        rfl
    | succ i2 =>
      have hi2 : i2 < rest.length := by
        simp only [List.length_cons] at hi
        omega
      simp only [List.getElem_cons_succ] at hne hfail ⊢
      have hearlier2 : ∀ k, (hk : k < i2) → rest[k].1 = ""
          ∨ rest[k].2.exit_code = some 0 := by
        intro k hk
        have hx := hearlier (k + 1) (by omega)
        simpa using hx
      have h0 := hearlier 0 (by omega)
      simp only [List.getElem_cons_zero] at h0
      have ihres := ih (idx + 1) i2 hi2 hne hfail hearlier2
      by_cases hc : c = ""
      · simp only [executeTaskTrace, if_pos hc]
        refine ⟨?_, ihres.2⟩
        intro e he j hj
        have := ihres.1 e he j hj
        omega
      · have hz : r.exit_code = some 0 := by
          rcases h0 with h | h
          · exact absurd h hc
          · exact h
        simp only [executeTaskTrace, if_neg hc, if_pos hz]
        obtain ⟨tl, s, ec, err, heq, _⟩ := executeTaskTrace_ends tid rest (idx + 1)
        have hnn : executeTaskTrace tid rest (idx + 1) ≠ [] := by
          rw [heq]
          simp
        constructor
        · intro e he j hj
          rcases List.mem_append.mp he with h1 | h2
          · have hidx := emitForCommand_idx tid idx c r e h1
            rw [hidx] at hj
            have : idx = j := Option.some.inj hj
            omega
          · have := ihres.1 e h2 j hj
            omega
        · rw [List.getLast?_append_of_ne_nil _ hnn]
          exact ihres.2

theorem executeTaskTrace_all_ok (tid : String) :
    ∀ (cmds : List (String × ShellOutcome)) (idx : Nat),
      (∀ k, (hk : k < cmds.length) → cmds[k].1 = "" ∨ cmds[k].2.exit_code = some 0) →
      (executeTaskTrace tid cmds idx).getLast?
        = some (PlanEnv.task_complete tid true (some 0) none) := by
  intro cmds
  induction cmds with
  | nil =>
    intro idx hall
    rfl
  | cons cr rest ih =>
    intro idx hall
    obtain ⟨c, r⟩ := cr
    have h0 := hall 0 (by simp)
    simp only [List.getElem_cons_zero] at h0
    have hall2 : ∀ k, (hk : k < rest.length) → rest[k].1 = ""
        ∨ rest[k].2.exit_code = some 0 := by
      intro k hk
      have hx := hall (k + 1) (by simp only [List.length_cons]; omega)
      simpa using hx
    simp only [executeTaskTrace]
    by_cases hc : c = ""
    · rw [if_pos hc]
      exact ih (idx + 1) hall2
    · rw [if_neg hc]
      have hz : r.exit_code = some 0 := by
        rcases h0 with h | h
        · exact absurd h hc
        · exact h
      rw [if_pos hz]
      obtain ⟨tl, s, ec, err, heq, _⟩ := executeTaskTrace_ends tid rest (idx + 1)
      have hnn : executeTaskTrace tid rest (idx + 1) ≠ [] := by
        rw [heq]
        simp
      rw [List.getLast?_append_of_ne_nil _ hnn]
      exact ih (idx + 1) hall2

/-- C4: for every execute_task plan, per-command envelopes appear in
non-decreasing command-index order (everything for index i before
anything for index i+1) with the single task_complete envelope last; if
command i exits with a non-zero code (and all earlier commands were
skipped or exited zero), no envelope carries an index above i and the
trace ends with task_complete success=false carrying that exit code; if
every command is skipped or exits zero, the trace ends with
task_complete success=true, exit_code 0. -/
theorem plan_envelopes_sequential_and_complete (tid : String)
    (cmds : List (String × ShellOutcome)) :
    (executeTaskTrace tid cmds 0).Pairwise idxLe ∧
      (∃ tl s ec err,
        executeTaskTrace tid cmds 0 = tl ++ [PlanEnv.task_complete tid s ec err] ∧
          ∀ x ∈ tl, isCompleteEnv x = false) ∧
      (∀ (i : Nat) (hi : i < cmds.length) (ec : Int),
        cmds[i].1 ≠ "" → cmds[i].2.exit_code = some ec → ec ≠ 0 →
        (∀ k, (hk : k < i) → cmds[k].1 = "" ∨ cmds[k].2.exit_code = some 0) →
        (∀ e ∈ executeTaskTrace tid cmds 0, ∀ j, planEnvIdx e = some j → j ≤ i) ∧
          (executeTaskTrace tid cmds 0).getLast?
            = some (PlanEnv.task_complete tid false (some ec)
                (some (orElseStr cmds[i].2.error cmds[i].2.stderr)))) ∧
      ((∀ k, (hk : k < cmds.length) → cmds[k].1 = "" ∨ cmds[k].2.exit_code = some 0) →
        (executeTaskTrace tid cmds 0).getLast?
          = some (PlanEnv.task_complete tid true (some 0) none)) := by
  refine ⟨executeTaskTrace_pairwise tid cmds 0, executeTaskTrace_ends tid cmds 0, ?_, ?_⟩
  · intro i hi ec hne hec hecnz hearlier
    have hfail : cmds[i].2.exit_code ≠ some 0 := by
      rw [hec]
      simp [hecnz]
    have hmain := executeTaskTrace_fail tid cmds 0 i hi hne hfail hearlier
    refine ⟨?_, ?_⟩
    · intro e he j hj
      have := hmain.1 e he j hj
      omega
    · rw [hmain.2, hec]
  · intro hall
    exact executeTaskTrace_all_ok tid cmds 0 hall

/-- Witness for C4 at a concrete two-command plan whose first command
fails with exit code 1: the trace is ordered, nothing mentions index 1,
and the last envelope is the failure task_complete. -/
theorem plan_envelopes_sequential_and_complete_witness :
    (executeTaskTrace "T1"
        [("false", ⟨some 1, "", "", none, 3⟩),
         ("echo unreached", ⟨some 0, "unreached", "", none, 2⟩)] 0).Pairwise idxLe ∧
      (executeTaskTrace "T1"
        [("false", ⟨some 1, "", "", none, 3⟩),
         ("echo unreached", ⟨some 0, "unreached", "", none, 2⟩)] 0).getLast?
        = some (PlanEnv.task_complete "T1" false (some 1) (some "")) ∧
      (∀ e ∈ executeTaskTrace "T1"
        [("false", ⟨some 1, "", "", none, 3⟩),
         ("echo unreached", ⟨some 0, "unreached", "", none, 2⟩)] 0,
        ∀ j, planEnvIdx e = some j → j ≤ 0) :=
  have h := plan_envelopes_sequential_and_complete "T1"
    [("false", ⟨some 1, "", "", none, 3⟩),
     ("echo unreached", ⟨some 0, "unreached", "", none, 2⟩)]
  have h3 := h.2.2.1 0 (by decide) 1 (by decide) (by decide) (by decide)
    (fun k hk => absurd hk (Nat.not_lt_zero k))
  ⟨h.1, h3.2, h3.1⟩

/-- C10: a plan command whose executor result carries exit_code None (as
a blocklist-refused command does: the shell handler fails it without
spawning, leaving exit_code untouched at None) has its command_result
envelope report exit_code 0 via the `or 0` coercion, yet execution still
halts there and the trace ends with task_complete success=false whose
exit_code field is None (null). -/
theorem none_exit_code_reported_zero_and_halts (tid cmd : String)
    (r : ShellOutcome) (rest : List (String × ShellOutcome)) (w : SpawnOutcome)
    (hne : cmd ≠ "") (hnone : r.exit_code = none) :
    executeTaskTrace tid ((cmd, r) :: rest) 0
        = emitForCommand tid 0 cmd r
          ++ [PlanEnv.task_complete tid false none
                (some (orElseStr r.error r.stderr))] ∧
      (emitForCommand tid 0 cmd r).head?
        = some (PlanEnv.command_result tid 0 cmd 0 r.duration_ms) ∧
      (execute_shell default_blocked_commands "rm -rf /" (initResult tid) w).1.exit_code
        = none ∧
      (execute_shell default_blocked_commands "rm -rf /" (initResult tid) w).1.status
        = TaskStatus.failed := by
  have hz : ¬ r.exit_code = some 0 := by
    rw [hnone]
    simp
  have hblk : is_blocked_command default_blocked_commands "rm -rf /" = true := by decide
  refine ⟨?_, ?_, ?_, ?_⟩
  · simp only [executeTaskTrace, if_neg hne, if_neg hz, hnone]
    simp
  · simp [emitForCommand, orZero, hnone]
  · simp [execute_shell, hblk, initResult]
  · simp [execute_shell, hblk, initResult]

/-- Witness for C10: the blocked command "rm -rf /" as the only plan
command, with the terminal result the executor produces for it. -/
theorem none_exit_code_reported_zero_and_halts_witness :
    executeTaskTrace "T2"
        [("rm -rf /", ⟨none, "", "", some "Command blocked by security policy", 0⟩)] 0
        = emitForCommand "T2" 0 "rm -rf /"
            ⟨none, "", "", some "Command blocked by security policy", 0⟩
          ++ [PlanEnv.task_complete "T2" false none
                (some "Command blocked by security policy")] ∧
      (emitForCommand "T2" 0 "rm -rf /"
          ⟨none, "", "", some "Command blocked by security policy", 0⟩).head?
        = some (PlanEnv.command_result "T2" 0 "rm -rf /" 0 0) ∧
      (execute_shell default_blocked_commands "rm -rf /" (initResult "T2")
          (SpawnOutcome.finished 0 "" "")).1.exit_code = none ∧
      (execute_shell default_blocked_commands "rm -rf /" (initResult "T2")
          (SpawnOutcome.finished 0 "" "")).1.status = TaskStatus.failed :=
  none_exit_code_reported_zero_and_halts "T2" "rm -rf /"
    ⟨none, "", "", some "Command blocked by security policy", 0⟩ []
    (SpawnOutcome.finished 0 "" "") (by decide) rfl

end PiAgent
